import Mathlib

/-!
Shallow embedding of `autoconvert.py` (azlee91/video-to-mp4): an MKV→MP4
batch converter.  Pure logic (encoding decision table, time formatting,
candidate discovery) is translated directly; the external processes
(ffprobe, ffmpeg, HandBrakeCLI) and filesystem calls (os.rename,
os.remove) are modelled by oracle outcomes, with Python exceptions
represented by the `Except` monad: a `.error` value is an exception
propagating out of the translated function, and Python `try/except`
blocks become `match`es on the inner `Except` value.
-/

namespace AutoConvert

/-! ## Encoding planner (determine_encoding_method_and_convert / encode_video_ffmpeg) -/

/-- The four encode modes of the specification's data model. -/
inductive EncodeMode
  | PassthroughBoth
  | AudioOnly
  | VideoOnly
  | Both
deriving DecidableEq

/-- The flag computation of `determine_encoding_method_and_convert`
(autoconvert.py lines 221-227): start from `convert_audio = convert_video
= True`, clear `convert_video` when the video codec is `"h264"`, clear
`convert_audio` when the audio codec is `"aac"`.  Returns
`(convert_audio, convert_video)`. -/
def convert_flags (audio_codec video_codec : String) : Bool × Bool :=
  let convert_audio := true
  let convert_video := true
  let convert_video := if video_codec = "h264" then false else convert_video
  let convert_audio := if audio_codec = "aac" then false else convert_audio
  (convert_audio, convert_video)

/-- The dictionary-key dispatch of `encode_video_ffmpeg` (autoconvert.py
lines 125-136): which of the four `ffmpeg_args` templates is selected from
the `(video, audio)` flags. -/
def ffargsKey (video audio : Bool) : String :=
  if !audio && !video then "none"
  else if audio && !video then "audio_only"
  else if !audio && video then "video_only"
  else "both"

/-- Reading of the `ffmpeg_args` keys as the specification's
`EncodeMode` variants: `"none"` is the pure remux (both streams copied),
`"audio_only"` re-encodes audio, `"video_only"` re-encodes video,
`"both"` re-encodes both. -/
def keyMode (k : String) : Option EncodeMode :=
  if k = "none" then some .PassthroughBoth
  else if k = "audio_only" then some .AudioOnly
  else if k = "video_only" then some .VideoOnly
  else if k = "both" then some .Both
  else none

/-- The mode the program plans for a codec pair: the flags computed by
`determine_encoding_method_and_convert` fed into `encode_video_ffmpeg`'s
template dispatch. -/
def plannedMode (audio_codec video_codec : String) : Option EncodeMode :=
  let flags := convert_flags audio_codec video_codec
  keyMode (ffargsKey flags.2 flags.1)

/-- The decision table exactly as the specification words it: re-encode
video iff the video codec is not `"h264"`, re-encode audio iff the audio
codec is not `"aac"`. -/
def spec_mode (audio_codec video_codec : String) : EncodeMode :=
  if video_codec ≠ "h264" then
    if audio_codec ≠ "aac" then .Both else .VideoOnly
  else
    if audio_codec ≠ "aac" then .AudioOnly else .PassthroughBoth

/-! ## Time formatter (seconds_to_time) -/

/-- Python's `f"{n:02d}"` for a non-negative integer: the decimal digits,
left-padded with `0` to width two. -/
def fmt02 (n : Nat) : String :=
  if n < 10 then "0" ++ toString n else toString n

/-- `seconds_to_time` (autoconvert.py lines 277-293): repeated floor
division and remainder with 24*3600, 3600 and 60. -/
def seconds_to_time (sec : Nat) : String :=
  let day := sec / (24 * 3600)
  let sec := sec % (24 * 3600)
  let hour := sec / 3600
  let sec := sec % 3600
  let minutes := sec / 60
  let sec := sec % 60
  fmt02 day ++ "d:" ++ fmt02 hour ++ "h:" ++ fmt02 minutes ++ "m:" ++ fmt02 sec ++ "s"

/-! ## Candidate discovery (main, lines 303-312) -/

/-- Is `p` a prefix of `s` (as character lists)?  Used for the substring
test below. -/
def isPfx : List Char → List Char → Bool
  | [], _ => true
  | _ :: _, [] => false
  | a :: as, b :: bs => a = b && isPfx as bs

/-- Python's `p in s` substring containment on strings, over character
lists: `p` occurs contiguously somewhere in `s`. -/
def isSub (p : List Char) : List Char → Bool
  | [] => p.isEmpty
  | c :: t => isPfx p (c :: t) || isSub p t

/-- The `"converted_"` marker substring tested by the discovery filter. -/
def convMarker : List Char := "converted_".toList

/-- `pathlib.Path(...).suffix` of a single path component: the substring
from the last `'.'` to the end, provided that dot is neither the first
nor the last character; otherwise the empty string. -/
def pathSuffix (s : String) : String :=
  let cs := s.toList
  match cs.reverse.findIdx? (fun c => c = '.') with
  | none => ""
  | some k =>
    let i := cs.length - 1 - k
    if 0 < i ∧ i < cs.length - 1 then String.mk (cs.drop i) else ""

/-- A directory entry as `os.listdir` + `os.path.isfile` see it: a name
and whether it is a regular file. -/
structure DirEntry where
  name : String
  isFile : Bool
deriving DecidableEq

/-- The extension allow-list `valid_exts` of `main` (line 304). -/
def valid_exts : List String := [".mkv"]

/-- The candidate list comprehension of `main` (lines 306-312): keep the
names of regular files that do not contain the `"converted_"` marker and
whose `Path(...).suffix` is in `valid_exts`. -/
def selectFiles (entries : List DirEntry) : List String :=
  (entries.filter (fun e =>
      e.isFile
      && !(isSub convMarker e.name.toList)
      && valid_exts.contains (pathSuffix e.name))).map (fun e => e.name)

/-! ## External-effect model

The program's observable effects on the world are the child processes it
starts and the renames/deletes it performs.  `Event` records them; the
input and output directories are lists of file names. -/

/-- An observable external effect of the program. -/
inductive Event
  | probed (file : String)
  | encoderStarted (tool : String) (file : String)
  | renamed (src dst : String)
  | deleted (file : String)
deriving DecidableEq

/-- Oracle for one external encoder invocation: does `subprocess.run`
raise (non-zero exit via `check=True`, or failure to start), and does the
`os.remove` cleanup of the partial output raise. -/
structure InvokerEnv where
  runRaises : Bool
  removeRaises : Bool
deriving DecidableEq

/-- Oracle for `codec_info`'s two ffprobe runs: whether either raises
(non-zero exit or failure to start), and the codec names printed. -/
structure ProbeEnv where
  ok : Bool
  audio_codec : String
  video_codec : String
deriving DecidableEq

/-- `os.remove f`: raises when the oracle says so or when the file does
not exist; otherwise the file is gone from the directory. -/
def os_remove (raises : Bool) (fs : List String) (f : String) :
    Except String (List String) :=
  if raises || !(fs.contains f) then .error "OSError"
  else .ok (fs.filter (fun g => g ≠ f))

/-- `os.rename src dst`: raises when the oracle says so or when `src`
does not exist; otherwise `src` is replaced by `dst`. -/
def os_rename (raises : Bool) (fs : List String) (src dst : String) :
    Except String (List String) :=
  if raises || !(fs.contains src) then .error "OSError"
  else .ok (fs.map (fun f => if f = src then dst else f))

/-- Python `video_file[:-4]`: all but the last four characters. -/
def dropExt4 (s : String) : String :=
  String.mk (s.toList.take (s.toList.length - 4))

/-- The output path computed by `encode_video_ffmpeg` (line 42) and
`encode_video_handbrake` (line 246): `converted_<basename>.mp4`. -/
def output_file_name (video_file : String) : String :=
  "converted_" ++ dropExt4 video_file ++ ".mp4"

/-- `encode_video_ffmpeg` (autoconvert.py lines 11-157): selects an
argument template by the flags, then inside `try`: if not `dry_run` it
runs ffmpeg; the `except` branch catches any exception, best-effort
removes the output file (its own `except: pass` swallowing removal
errors) and returns `False`; otherwise `True` is returned.  The result
is the success boolean, the output directory contents after the call and
the processes started. -/
def encode_video_ffmpeg (video audio dry_run : Bool) (env : InvokerEnv)
    (outFs : List String) (video_file : String) :
    Except String (Bool × List String × List Event) :=
  let output_file := output_file_name video_file
  let _ := ffargsKey video audio
  if dry_run then
    .ok (true, outFs, [])
  else if env.runRaises then
    match os_remove env.removeRaises outFs output_file with
    | .ok outFs' => .ok (false, outFs', [.encoderStarted "ffmpeg" video_file])
    | .error _ => .ok (false, outFs, [.encoderStarted "ffmpeg" video_file])
  else
    .ok (true, outFs, [.encoderStarted "ffmpeg" video_file])

/-- `codec_info` (lines 160-208): two `subprocess.run(..., check=True)`
ffprobe calls with no `try` around them; a failure of either raises out
of the function, modelled as a single oracle bit. -/
def codec_info (pe : ProbeEnv) : Except String (String × String) :=
  if pe.ok then .ok (pe.audio_codec, pe.video_codec)
  else .error "CalledProcessError"

/-- `determine_encoding_method_and_convert` (lines 211-236): probe the
codecs (uncaught on failure), compute the flags, call
`encode_video_ffmpeg`. -/
def determine_encoding_method_and_convert (dry_run : Bool) (pe : ProbeEnv)
    (env : InvokerEnv) (outFs : List String) (video_file : String) :
    Except String (Bool × List String × List Event) :=
  match codec_info pe with
  | .error e => .error e
  | .ok codecs =>
    let flags := convert_flags codecs.1 codecs.2
    match encode_video_ffmpeg flags.2 flags.1 dry_run env outFs video_file with
    | .error e => .error e
    | .ok r => .ok (r.1, r.2.1, .probed video_file :: r.2.2)

/-- `encode_video_handbrake` (lines 239-274): always runs HandBrakeCLI
(there is no dry-run parameter); `try/except` turns any failure into a
`False` return with no cleanup. -/
def encode_video_handbrake (env : InvokerEnv) (outFs : List String)
    (video_file : String) :
    Except String (Bool × List String × List Event) :=
  if env.runRaises then
    .ok (false, outFs, [.encoderStarted "HandBrakeCLI" video_file])
  else
    .ok (true, outFs, [.encoderStarted "HandBrakeCLI" video_file])

/-! ## Batch orchestrator (main, lines 296-349) -/

/-- The command-line flags `main` consults. -/
structure Args where
  dry_run : Bool
  delete_source : Bool
  handbrake : Bool
deriving DecidableEq

/-- The oracle outcomes for one file's processing. -/
structure FileEnv where
  probe : ProbeEnv
  inv : InvokerEnv
  renameRaises : Bool
  deleteRaises : Bool
deriving DecidableEq

/-- The orchestrator's running state: input-directory contents,
output-directory contents, the two bookkeeping lists and the effects so
far. -/
structure BatchState where
  inFs : List String
  outFs : List String
  succeeded : List String
  failed : List String
  events : List Event
deriving DecidableEq

/-- One iteration of the `for vid in files` loop of `main` (lines
321-345): invoke handbrake or the ffmpeg pipeline, then on success append
to `succeeded`, rename unless dry-run, delete the renamed file when
`delete_source` and not dry-run; on failure append to `failed`.  The
rename and delete are not wrapped in any `try`. -/
def processFile (args : Args) (fe : FileEnv) (vid : String)
    (st : BatchState) : Except String BatchState :=
  let res :=
    if args.handbrake then
      encode_video_handbrake fe.inv st.outFs vid
    else
      determine_encoding_method_and_convert args.dry_run fe.probe fe.inv
        st.outFs vid
  match res with
  | .error e => .error e
  | .ok r =>
    let success := r.1
    let st := { st with outFs := r.2.1, events := st.events ++ r.2.2 }
    if success then
      let st := { st with succeeded := st.succeeded ++ [vid] }
      let renamed : Except String BatchState :=
        if !args.dry_run then
          match os_rename fe.renameRaises st.inFs vid ("converted_" ++ vid) with
          | .error e => .error e
          | .ok inFs' =>
            .ok { st with inFs := inFs',
                          events := st.events ++ [.renamed vid ("converted_" ++ vid)] }
        else .ok st
      match renamed with
      | .error e => .error e
      | .ok st =>
        if args.delete_source && !args.dry_run then
          match os_remove fe.deleteRaises st.inFs ("converted_" ++ vid) with
          | .error e => .error e
          | .ok inFs' =>
            .ok { st with inFs := inFs',
                          events := st.events ++ [.deleted ("converted_" ++ vid)] }
        else .ok st
    else
      .ok { st with failed := st.failed ++ [vid] }

/-- The whole `for` loop: process the files in order; an uncaught
exception in any iteration propagates (no later file is reached and no
summary state is produced). -/
def runFiles (args : Args) : List (String × FileEnv) → BatchState →
    Except String BatchState
  | [], st => .ok st
  | (vid, fe) :: rest, st =>
    match processFile args fe vid st with
    | .error e => .error e
    | .ok st' => runFiles args rest st'

/-- `main` after discovery: the batch loop started on the candidate
files, with empty bookkeeping lists; reaching the summary (lines 347-349)
is exactly a `.ok` result. -/
def main_run (args : Args) (files : List (String × FileEnv)) :
    Except String BatchState :=
  runFiles args files
    { inFs := files.map (fun p => p.1), outFs := [],
      succeeded := [], failed := [], events := [] }

/-- The process exit code: Python exits 0 when `main` returns, and with
a non-zero code (uncaught-exception traceback) otherwise. -/
def exitCode (r : Except String BatchState) : Nat :=
  match r with
  | .ok _ => 0
  | .error _ => 1

/-- Whether the encoder invocation for one file reports success: in
handbrake mode success is the run not raising; in ffmpeg mode a dry run
always succeeds and otherwise success is the run not raising. -/
def fileSuccess (args : Args) (fe : FileEnv) : Bool :=
  if args.handbrake then !fe.inv.runRaises
  else if args.dry_run then true
  else !fe.inv.runRaises

/-- Whether one file's processing raises no uncaught exception: the probe
must succeed on the ffmpeg path, and when the file succeeds outside
dry-run the rename (and the delete, when requested) must not raise. -/
def perFileNoExn (args : Args) (fe : FileEnv) : Bool :=
  (args.handbrake || fe.probe.ok)
  && (if fileSuccess args fe && !args.dry_run then
        !fe.renameRaises && (!args.delete_source || !fe.deleteRaises)
      else true)

/-- A per-file oracle where everything goes well: the probe reports an
already-compliant file and no call raises. -/
def okFe : FileEnv := ⟨⟨true, "aac", "h264"⟩, ⟨false, false⟩, false, false⟩

/-- A per-file oracle whose encoder run fails (non-zero exit). -/
def encFailFe : FileEnv := ⟨⟨true, "aac", "h264"⟩, ⟨true, false⟩, false, false⟩

/-- A per-file oracle whose codec probe fails. -/
def probeFailFe : FileEnv := ⟨⟨false, "", ""⟩, ⟨false, false⟩, false, false⟩

/-- A per-file oracle whose finalize rename raises. -/
def renameFailFe : FileEnv := ⟨⟨true, "aac", "h264"⟩, ⟨false, false⟩, true, false⟩

/-! ## Theorems -/

/-- Claim C1: for every pair of codec-name strings the planned mode is
exactly the spec's decision table — re-encode video iff the video codec
is not `"h264"`, re-encode audio iff the audio codec is not `"aac"`,
with modes Both / VideoOnly / AudioOnly / PassthroughBoth accordingly —
and in particular (video,audio) = (h264,aac) ↦ PassthroughBoth,
(h264,mp3) ↦ AudioOnly, (vp9,aac) ↦ VideoOnly, (vp9,mp3) ↦ Both. -/
theorem planner_decision_table :
    (∀ audio_codec video_codec : String,
        plannedMode audio_codec video_codec
          = some (spec_mode audio_codec video_codec))
    ∧ plannedMode "aac" "h264" = some EncodeMode.PassthroughBoth
    ∧ plannedMode "mp3" "h264" = some EncodeMode.AudioOnly
    ∧ plannedMode "aac" "vp9" = some EncodeMode.VideoOnly
    ∧ plannedMode "mp3" "vp9" = some EncodeMode.Both := by
  refine ⟨fun a v => ?_, rfl, rfl, rfl, rfl⟩
  by_cases hv : v = "h264" <;> by_cases ha : a = "aac" <;>
    simp [plannedMode, convert_flags, ffargsKey, keyMode, spec_mode, hv, ha]

/-- Claim C8: for every number of seconds, `seconds_to_time` produces
the zero-padded `DDd:HHh:MMm:SSs` string of the floor-division
decomposition by 86400, 3600 and 60, and in particular 0, 3661 and 90000
map to the three listed strings. -/
theorem seconds_to_time_decomposition :
    (∀ s : Nat, seconds_to_time s =
        fmt02 (s / 86400) ++ "d:" ++ fmt02 (s % 86400 / 3600) ++ "h:"
          ++ fmt02 (s % 3600 / 60) ++ "m:" ++ fmt02 (s % 60) ++ "s")
    ∧ seconds_to_time 0 = "00d:00h:00m:00s"
    ∧ seconds_to_time 3661 = "00d:01h:01m:01s"
    ∧ seconds_to_time 90000 = "01d:01h:00m:00s" := by
  refine ⟨fun s => ?_, rfl, rfl, rfl⟩
  have h1 : s % (24 * 3600) % 3600 = s % 3600 :=
    Nat.mod_mod_of_dvd s (by norm_num)
  have h2 : s % (24 * 3600) % 3600 % 60 = s % 60 := by
    rw [h1]; exact Nat.mod_mod_of_dvd s (by norm_num)
  simp only [seconds_to_time, h1, h2]
  norm_num

/-- Claim C7: a name is selected as a candidate iff it belongs to a
regular-file entry, its `Path` suffix is `".mkv"` (the whole allow-list)
and it does not contain the `"converted_"` substring; hence selected
names never carry the converted marker and never have another
extension. -/
theorem discovery_filter :
    (∀ (entries : List DirEntry) (n : String),
        n ∈ selectFiles entries ↔
          ∃ e, e ∈ entries ∧ e.name = n ∧ e.isFile = true
            ∧ pathSuffix n = ".mkv" ∧ isSub convMarker n.toList = false)
    ∧ (∀ (entries : List DirEntry) (n : String),
        n ∈ selectFiles entries →
          isSub convMarker n.toList = false ∧ pathSuffix n = ".mkv") := by
  have key : ∀ (entries : List DirEntry) (n : String),
      n ∈ selectFiles entries ↔
        ∃ e, e ∈ entries ∧ e.name = n ∧ e.isFile = true
          ∧ pathSuffix n = ".mkv" ∧ isSub convMarker n.toList = false := by
    intro entries n
    simp only [selectFiles, List.mem_map, List.mem_filter, valid_exts,
      Bool.and_eq_true, Bool.not_eq_true']
    constructor
    · rintro ⟨e, ⟨he, ⟨hf, hsub⟩, hsuf⟩, rfl⟩
      refine ⟨e, he, rfl, hf, ?_, hsub⟩
      simpa using hsuf
    · rintro ⟨e, he, rfl, hf, hsuf, hsub⟩
      exact ⟨e, ⟨he, ⟨hf, hsub⟩, by simpa using hsuf⟩, rfl⟩
  refine ⟨key, fun entries n h => ?_⟩
  rcases (key entries n).mp h with ⟨e, -, -, -, h4, h5⟩
  exact ⟨h5, h4⟩

/-- A witness for the discovery filter: `"a.mkv"` as a regular file is
selected, while a marker-bearing name, a directory entry and a foreign
extension are not. -/
theorem discovery_filter_w :
    "a.mkv" ∈ selectFiles
      [⟨"a.mkv", true⟩, ⟨"converted_b.mkv", true⟩, ⟨"c.avi", true⟩, ⟨"d.mkv", false⟩]
    ∧ isSub convMarker "a.mkv".toList = false ∧ pathSuffix "a.mkv" = ".mkv" := by
  have hmem : "a.mkv" ∈ selectFiles
      [⟨"a.mkv", true⟩, ⟨"converted_b.mkv", true⟩, ⟨"c.avi", true⟩,
        ⟨"d.mkv", false⟩] := by
    apply (discovery_filter.1 _ _).mpr
    exact ⟨⟨"a.mkv", true⟩, by simp, rfl, rfl, by decide, by decide⟩
  exact ⟨hmem, discovery_filter.2 _ _ hmem⟩

/-- Claim C9: outside dry-run, a failing encoder run inside
`encode_video_ffmpeg` is caught and turned into a `False` return (never
an exception), and the computed output file is best-effort removed, a
removal error leaving the directory as it was. -/
theorem encode_failure_is_caught (video audio : Bool) (env : InvokerEnv)
    (outFs : List String) (video_file : String)
    (h : env.runRaises = true) :
    encode_video_ffmpeg video audio false env outFs video_file =
      .ok (false,
        (if env.removeRaises || !(outFs.contains (output_file_name video_file))
          then outFs
          else outFs.filter (fun g => g ≠ output_file_name video_file)),
        [Event.encoderStarted "ffmpeg" video_file]) := by
  by_cases h1 : env.removeRaises = true <;>
    by_cases h2 : output_file_name video_file ∈ outFs <;>
      simp [encode_video_ffmpeg, os_remove, h, h1, h2]

/-- Witness for claim C9: a concrete failing run removes the concrete
partial output and still returns `.ok false`. -/
theorem encode_failure_is_caught_w :
    encode_video_ffmpeg true true false ⟨true, false⟩ ["converted_a.mp4"] "a.mkv"
      = .ok (false, [], [Event.encoderStarted "ffmpeg" "a.mkv"]) := by
  have h := encode_failure_is_caught true true ⟨true, false⟩
    ["converted_a.mp4"] "a.mkv" rfl
  simpa using h

/-! ### Helper lemmas on the filesystem and invoke phase -/

theorem os_rename_mem_ok (fs : List String) (src dst : String) (h : src ∈ fs) :
    os_rename false fs src dst
      = .ok (fs.map fun f => if f = src then dst else f) := by
  simp [os_rename, h]

theorem os_remove_mem_ok (fs : List String) (f : String) (h : f ∈ fs) :
    os_remove false fs f = .ok (fs.filter fun g => g ≠ f) := by
  simp [os_remove, h]

/-- The invoke phase of one loop iteration: when it cannot raise (either
handbrake mode, or a successful probe), it returns `.ok` with exactly
`fileSuccess` as the reported boolean, and the emitted events contain no
rename and no delete. -/
theorem invoke_ok (args : Args) (fe : FileEnv) (vid : String)
    (outFs : List String)
    (hp : args.handbrake = true ∨ fe.probe.ok = true) :
    ∃ outFs' evs,
      (if args.handbrake then encode_video_handbrake fe.inv outFs vid
       else determine_encoding_method_and_convert args.dry_run fe.probe fe.inv
          outFs vid)
        = .ok (fileSuccess args fe, outFs', evs)
      ∧ (∀ a b, Event.renamed a b ∉ evs) ∧ (∀ f, Event.deleted f ∉ evs) := by
  by_cases hb : args.handbrake = true
  · refine ⟨outFs, [Event.encoderStarted "HandBrakeCLI" vid], ?_, by simp, by simp⟩
    by_cases hr : fe.inv.runRaises = true <;>
      simp [hb, encode_video_handbrake, fileSuccess, hr]
  · have hpr : fe.probe.ok = true := by
      rcases hp with hp | hp
      · exact absurd hp hb
      · exact hp
    by_cases hd : args.dry_run = true
    · refine ⟨outFs, [Event.probed vid], ?_, by simp, by simp⟩
      simp [hb, hd, hpr, determine_encoding_method_and_convert, codec_info,
        encode_video_ffmpeg, fileSuccess]
    · by_cases hr : fe.inv.runRaises = true
      · cases hrem : os_remove fe.inv.removeRaises outFs (output_file_name vid) with
        | ok o =>
          refine ⟨o,
            [Event.probed vid, Event.encoderStarted "ffmpeg" vid],
            ?_, by simp, by simp⟩
          simp [hb, hd, hpr, hr, hrem, determine_encoding_method_and_convert,
            codec_info, encode_video_ffmpeg, fileSuccess]
        | error e =>
          refine ⟨outFs,
            [Event.probed vid, Event.encoderStarted "ffmpeg" vid],
            ?_, by simp, by simp⟩
          simp [hb, hd, hpr, hr, hrem, determine_encoding_method_and_convert,
            codec_info, encode_video_ffmpeg, fileSuccess]
      · refine ⟨outFs,
          [Event.probed vid, Event.encoderStarted "ffmpeg" vid],
          ?_, by simp, by simp⟩
        simp [hb, hd, hpr, hr, determine_encoding_method_and_convert,
          codec_info, encode_video_ffmpeg, fileSuccess]

/-- One loop iteration characterized: with the source file present in the
input directory and no uncaught exception for this file, the iteration
returns `.ok`, appends the file to exactly one bookkeeping list according
to `fileSuccess`, and every other entry of the input directory (neither
the file nor its converted name) survives. -/
theorem processFile_ok_char (args : Args) (fe : FileEnv) (vid : String)
    (st : BatchState)
    (hmem : vid ∈ st.inFs)
    (hexn : perFileNoExn args fe = true) :
    ∃ st', processFile args fe vid st = .ok st'
      ∧ st'.succeeded = st.succeeded ++ (if fileSuccess args fe then [vid] else [])
      ∧ st'.failed = st.failed ++ (if fileSuccess args fe then [] else [vid])
      ∧ (∀ n, n ∈ st.inFs → n ≠ vid → n ≠ "converted_" ++ vid → n ∈ st'.inFs) := by
  have hx := hexn
  simp only [perFileNoExn, Bool.and_eq_true, Bool.or_eq_true] at hx
  obtain ⟨hp, hfin⟩ := hx
  obtain ⟨outFs', evs, hinv, -, -⟩ := invoke_ok args fe vid st.outFs hp
  by_cases hs : fileSuccess args fe = true
  · by_cases hd : args.dry_run = true
    · refine ⟨⟨st.inFs, outFs', st.succeeded ++ [vid], st.failed,
          st.events ++ evs⟩, ?_, by simp [hs], by simp [hs],
          fun n hn _ _ => by simpa using hn⟩
      simp only [processFile]
      rw [hinv]
      simp [hs, hd]
    · have hd' : args.dry_run = false := by
        revert hd; cases args.dry_run <;> simp
      have hfin' : (!fe.renameRaises
          && (!args.delete_source || !fe.deleteRaises)) = true := by
        simpa [hs, hd'] using hfin
      simp only [Bool.and_eq_true, Bool.or_eq_true, Bool.not_eq_true'] at hfin'
      obtain ⟨hrn, hdor⟩ := hfin'
      have hconvmem : ("converted_" ++ vid) ∈
          st.inFs.map (fun f => if f = vid then "converted_" ++ vid else f) :=
        List.mem_map.mpr ⟨vid, hmem, by simp⟩
      by_cases hds : args.delete_source = true
      · have hdel : fe.deleteRaises = false := by
          rcases hdor with h | h
          · rw [hds] at h; cases h
          · exact h
        refine ⟨⟨(st.inFs.map (fun f =>
              if f = vid then "converted_" ++ vid else f)).filter
                (fun g => g ≠ "converted_" ++ vid),
            outFs',
            st.succeeded ++ [vid],
            st.failed,
            ((st.events ++ evs)
              ++ [Event.renamed vid ("converted_" ++ vid)])
              ++ [Event.deleted ("converted_" ++ vid)]⟩,
            ?_, by simp [hs], by simp [hs], ?_⟩
        · simp only [processFile]
          rw [hinv]
          simp only [hs, hd', hds, hrn, hdel]
          rw [os_rename_mem_ok st.inFs vid ("converted_" ++ vid) hmem]
          simp [os_remove_mem_ok _ _ hconvmem]
        · intro n hn hnvid hnconv
          simp only [List.mem_filter, List.mem_map]
          exact ⟨⟨n, hn, by simp [hnvid]⟩, by simp [hnconv]⟩
      · have hds' : args.delete_source = false := by
          revert hds; cases args.delete_source <;> simp
        refine ⟨⟨st.inFs.map (fun f =>
              if f = vid then "converted_" ++ vid else f),
            outFs',
            st.succeeded ++ [vid],
            st.failed,
            (st.events ++ evs)
              ++ [Event.renamed vid ("converted_" ++ vid)]⟩,
            ?_, by simp [hs], by simp [hs], ?_⟩
        · simp only [processFile]
          rw [hinv]
          simp only [hs, hd', hds', hrn]
          rw [os_rename_mem_ok st.inFs vid ("converted_" ++ vid) hmem]
          simp
        · intro n hn hnvid _
          exact List.mem_map.mpr ⟨n, hn, by simp [hnvid]⟩
  · have hs' : fileSuccess args fe = false := by
      revert hs; cases fileSuccess args fe <;> simp
    refine ⟨⟨st.inFs, outFs', st.succeeded, st.failed ++ [vid],
        st.events ++ evs⟩, ?_, by simp [hs'], by simp [hs'],
        fun n hn _ _ => by simpa using hn⟩
    simp only [processFile]
    rw [hinv]
    simp [hs']

/-- Partitioning a list by a boolean predicate preserves its length. -/
theorem length_filter_partition {α : Type} (p : α → Bool) (l : List α) :
    (l.filter p).length + (l.filter fun a => !(p a)).length = l.length := by
  induction l with
  | nil => rfl
  | cons a t ih => by_cases h : p a = true <;> simp [List.filter_cons, h] <;> omega

/-- The batch loop characterized: if every candidate is present in the
input directory, candidate names are distinct, no candidate bears another
candidate's converted name, and no file's processing raises, the loop
reaches the summary with the bookkeeping lists extended by the
order-preserving partition of the candidates by `fileSuccess`. -/
theorem runFiles_ok_char (args : Args) :
    ∀ (files : List (String × FileEnv)) (st : BatchState),
      (∀ p ∈ files, p.1 ∈ st.inFs) →
      (files.map (fun p => p.1)).Nodup →
      (∀ p ∈ files, ∀ q ∈ files, p.1 ≠ "converted_" ++ q.1) →
      (∀ p ∈ files, perFileNoExn args p.2 = true) →
      ∃ st', runFiles args files st = .ok st'
        ∧ st'.succeeded = st.succeeded
            ++ (files.filter (fun p => fileSuccess args p.2)).map (fun p => p.1)
        ∧ st'.failed = st.failed
            ++ (files.filter (fun p => !(fileSuccess args p.2))).map (fun p => p.1)
    := by
  intro files
  induction files with
  | nil => exact fun st _ _ _ _ => ⟨st, rfl, by simp, by simp⟩
  | cons hd tl ih =>
    intro st hmem hnd hnc hok
    obtain ⟨vid, fe⟩ := hd
    obtain ⟨st1, hpf, hsucc1, hfail1, hpres⟩ :=
      processFile_ok_char args fe vid st (hmem (vid, fe) (by simp))
        (hok (vid, fe) (by simp))
    simp only [List.map_cons, List.nodup_cons] at hnd
    obtain ⟨hvid_not, hndtl⟩ := hnd
    have hmem1 : ∀ p ∈ tl, p.1 ∈ st1.inFs := by
      intro p hp
      refine hpres p.1 (hmem p (by simp [hp])) ?_ ?_
      · intro h
        exact hvid_not (h ▸ List.mem_map_of_mem _ hp)
      · exact hnc p (by simp [hp]) (vid, fe) (by simp)
    obtain ⟨st', hrun, hsucc, hfail⟩ := ih st1 hmem1 hndtl
      (fun p hp q hq => hnc p (by simp [hp]) q (by simp [hq]))
      (fun p hp => hok p (by simp [hp]))
    refine ⟨st', ?_, ?_, ?_⟩
    · simp [runFiles, hpf, hrun]
    · rw [hsucc, hsucc1]
      by_cases hfs : fileSuccess args fe = true <;>
        simp [List.filter_cons, hfs, List.append_assoc]
    · rw [hfail, hfail1]
      by_cases hfs : fileSuccess args fe = true <;>
        simp [List.filter_cons, hfs, List.append_assoc]

/-- The batch loop in dry-run ffmpeg mode: with successful probes it only
probes — the directories are untouched and every file lands in the
succeeded list. -/
theorem runFiles_dry_ffmpeg (args : Args) (hd : args.dry_run = true)
    (hb : args.handbrake = false) :
    ∀ (files : List (String × FileEnv)) (st : BatchState),
      (∀ p ∈ files, p.2.probe.ok = true) →
      ∃ st', runFiles args files st = .ok st'
        ∧ st'.inFs = st.inFs ∧ st'.outFs = st.outFs
        ∧ st'.succeeded = st.succeeded ++ files.map (fun p => p.1)
        ∧ st'.failed = st.failed
        ∧ st'.events = st.events ++ files.map (fun p => Event.probed p.1)
    := by
  intro files
  induction files with
  | nil => exact fun st _ => ⟨st, rfl, rfl, rfl, by simp, rfl, by simp⟩
  | cons hdp tl ih =>
    intro st hpr
    obtain ⟨vid, fe⟩ := hdp
    have hfe : fe.probe.ok = true := hpr (vid, fe) (by simp)
    have hpf : processFile args fe vid st
        = .ok ⟨st.inFs, st.outFs, st.succeeded ++ [vid], st.failed,
            st.events ++ [Event.probed vid]⟩ := by
      simp [processFile, hb, hd, hfe, determine_encoding_method_and_convert,
        codec_info, encode_video_ffmpeg]
    obtain ⟨st', h1, h2, h3, h4, h5, h6⟩ :=
      ih ⟨st.inFs, st.outFs, st.succeeded ++ [vid], st.failed,
            st.events ++ [Event.probed vid]⟩ (fun p hp => hpr p (by simp [hp]))
    exact ⟨st', by simp [runFiles, hpf, h1], by simpa using h2, by simpa using h3,
      by simpa [List.append_assoc] using h4, by simpa using h5,
      by simpa [List.append_assoc] using h6⟩

/-- Counterexample to claim C2 as stated: with a probe-failing first file
and a healthy second file the orchestrator does not catch the error,
record the file as failed and continue — the whole batch aborts with the
uncaught probe exception, so no summary state exists at all and the
second file is never reached. -/
theorem probe_failure_no_continuation :
    main_run ⟨false, false, false⟩ [("a.mkv", probeFailFe), ("b.mkv", okFe)]
      = .error "CalledProcessError" := rfl

/-- Claim C2 (amended): a probe failure for one file in the ffmpeg
pipeline is not caught anywhere — the error propagates out of the batch
loop, the file is not recorded as failed, and the remaining files are
not processed. -/
theorem probe_failure_aborts_batch (args : Args) (fe : FileEnv) (vid : String)
    (hb : args.handbrake = false) (hpr : fe.probe.ok = false) :
    ∀ (rest : List (String × FileEnv)) (st : BatchState),
      runFiles args ((vid, fe) :: rest) st = .error "CalledProcessError" := by
  intro rest st
  simp [runFiles, processFile, hb, determine_encoding_method_and_convert,
    codec_info, hpr]

/-- Witness for the amended claim C2 at a concrete batch. -/
theorem probe_failure_aborts_batch_w :
    runFiles ⟨false, false, false⟩ [("a.mkv", probeFailFe)]
      ⟨["a.mkv"], [], [], [], []⟩ = .error "CalledProcessError" :=
  probe_failure_aborts_batch ⟨false, false, false⟩ probeFailFe "a.mkv" rfl rfl
    [] ⟨["a.mkv"], [], [], [], []⟩

/-- Counterexample to claim C3 as stated: in handbrake mode the dry-run
flag is ignored by the invoker — the external encoder process is started
(the `encoderStarted` event below) even though dry-run is set. -/
theorem dry_run_handbrake_starts_encoder :
    main_run ⟨true, false, true⟩ [("a.mkv", okFe)]
      = .ok ⟨["a.mkv"], [], ["a.mkv"], [],
          [Event.encoderStarted "HandBrakeCLI" "a.mkv"]⟩ := rfl

/-- Claim C3 (amended): with dry-run set, the ffmpeg pipeline starts no
encoder process, performs no rename and no delete, leaves both
directories untouched and reports every candidate as succeeded, provided
the probes (which do still run) succeed; the handbrake mode, by
contrast, ignores the dry-run flag for its encoder invocation while the
rename/delete are still suppressed. -/
theorem dry_run_ffmpeg_no_mutation (args : Args)
    (files : List (String × FileEnv))
    (hd : args.dry_run = true) (hb : args.handbrake = false)
    (hpr : ∀ p ∈ files, p.2.probe.ok = true) :
    ∃ st', main_run args files = .ok st'
      ∧ st'.inFs = files.map (fun p => p.1)
      ∧ st'.outFs = []
      ∧ st'.succeeded = files.map (fun p => p.1)
      ∧ st'.failed = []
      ∧ (∀ t f, Event.encoderStarted t f ∉ st'.events)
      ∧ (∀ a b, Event.renamed a b ∉ st'.events)
      ∧ (∀ f, Event.deleted f ∉ st'.events) := by
  obtain ⟨st', h1, h2, h3, h4, h5, h6⟩ :=
    runFiles_dry_ffmpeg args hd hb files
      ⟨files.map (fun p => p.1), [], [], [], []⟩ hpr
  refine ⟨st', h1, by simpa using h2, by simpa using h3, by simpa using h4,
    by simpa using h5, ?_, ?_, ?_⟩
  · intro t f hmem
    rw [h6] at hmem
    simp at hmem
  · intro a b hmem
    rw [h6] at hmem
    simp at hmem
  · intro f hmem
    rw [h6] at hmem
    simp at hmem

/-- Witness for the amended claim C3: a dry run over a file whose encoder
would fail and with delete-source set still mutates nothing and succeeds. -/
theorem dry_run_ffmpeg_no_mutation_w :
    ∃ st', main_run ⟨true, true, false⟩ [("a.mkv", encFailFe)] = .ok st'
      ∧ st'.inFs = [("a.mkv", encFailFe)].map
          (fun p : String × FileEnv => p.1)
      ∧ st'.outFs = []
      ∧ st'.succeeded = [("a.mkv", encFailFe)].map
          (fun p : String × FileEnv => p.1)
      ∧ st'.failed = []
      ∧ (∀ t f, Event.encoderStarted t f ∉ st'.events)
      ∧ (∀ a b, Event.renamed a b ∉ st'.events)
      ∧ (∀ f, Event.deleted f ∉ st'.events) :=
  dry_run_ffmpeg_no_mutation ⟨true, true, false⟩ [("a.mkv", encFailFe)]
    rfl rfl (by decide)

/-- Counterexample to claim C4 as stated: one probe failure and the
process does not exit 0 — `main` dies with an uncaught exception, which
Python turns into a non-zero exit code. -/
theorem probe_failure_exit_one :
    exitCode (main_run ⟨false, false, false⟩ [("a.mkv", probeFailFe)]) = 1 :=
  rfl

/-- Claim C4 (amended): per-file encode failures never change the exit
code — whenever every probe succeeds and no successful file's finalize
rename/delete raises, the process exits 0 regardless of how many encoder
invocations fail; but an uncaught probe or filesystem error does escalate
to an abnormal (non-zero) termination. -/
theorem exit_zero_without_uncaught (args : Args)
    (files : List (String × FileEnv))
    (hnd : (files.map (fun p => p.1)).Nodup)
    (hnc : ∀ p ∈ files, ∀ q ∈ files, p.1 ≠ "converted_" ++ q.1)
    (hok : ∀ p ∈ files, perFileNoExn args p.2 = true) :
    exitCode (main_run args files) = 0 := by
  obtain ⟨st', h1, -, -⟩ := runFiles_ok_char args files
    ⟨files.map (fun p => p.1), [], [], [], []⟩
    (fun p hp => List.mem_map_of_mem _ hp) hnd hnc hok
  simp [main_run, exitCode, h1]

/-- Witness for the amended claim C4: one success and one encode failure
still exit 0. -/
theorem exit_zero_without_uncaught_w :
    exitCode (main_run ⟨false, false, false⟩
      [("a.mkv", okFe), ("b.mkv", encFailFe)]) = 0 :=
  exit_zero_without_uncaught ⟨false, false, false⟩
    [("a.mkv", okFe), ("b.mkv", encFailFe)] (by decide) (by decide) (by decide)

/-- Claim C5: for a batch of distinct candidates whose per-file
processing raises no uncaught exception, the summary's succeeded list is
the order-preserving selection of the K successful candidates, the failed
list the order-preserving selection of the N−K failing ones, the lengths
add up to N, and every candidate name appears in exactly one of the two
lists. -/
theorem batch_summary_partition (args : Args)
    (files : List (String × FileEnv))
    (hnd : (files.map (fun p => p.1)).Nodup)
    (hnc : ∀ p ∈ files, ∀ q ∈ files, p.1 ≠ "converted_" ++ q.1)
    (hok : ∀ p ∈ files, perFileNoExn args p.2 = true) :
    ∃ st', main_run args files = .ok st'
      ∧ st'.succeeded
          = (files.filter (fun p => fileSuccess args p.2)).map (fun p => p.1)
      ∧ st'.failed
          = (files.filter (fun p => !(fileSuccess args p.2))).map (fun p => p.1)
      ∧ st'.succeeded.length + st'.failed.length = files.length
      ∧ (∀ n, n ∈ files.map (fun p => p.1) ↔ (n ∈ st'.succeeded ∨ n ∈ st'.failed))
      ∧ (∀ n, ¬(n ∈ st'.succeeded ∧ n ∈ st'.failed))
      ∧ st'.succeeded.Sublist (files.map (fun p => p.1))
      ∧ st'.failed.Sublist (files.map (fun p => p.1)) := by
  obtain ⟨st', h1, h2', h3'⟩ := runFiles_ok_char args files
    ⟨files.map (fun p => p.1), [], [], [], []⟩
    (fun p hp => List.mem_map_of_mem _ hp) hnd hnc hok
  have h2 : st'.succeeded
      = (files.filter (fun p => fileSuccess args p.2)).map (fun p => p.1) := by
    simpa using h2'
  have h3 : st'.failed
      = (files.filter (fun p => !(fileSuccess args p.2))).map (fun p => p.1) := by
    simpa using h3'
  refine ⟨st', h1, h2, h3, ?_, ?_, ?_, ?_, ?_⟩
  · rw [h2, h3]
    simp only [List.length_map]
    exact length_filter_partition _ files
  · intro n
    constructor
    · intro hn
      obtain ⟨p, hp, rfl⟩ := List.mem_map.mp hn
      by_cases hfs : fileSuccess args p.2 = true
      · exact Or.inl (h2 ▸ List.mem_map_of_mem _ (List.mem_filter.mpr ⟨hp, hfs⟩))
      · have hfs' : (!(fileSuccess args p.2)) = true := by
          revert hfs; cases fileSuccess args p.2 <;> simp
        exact Or.inr (h3 ▸ List.mem_map_of_mem _ (List.mem_filter.mpr ⟨hp, hfs'⟩))
    · intro hn
      rcases hn with hn | hn
      · rw [h2] at hn
        obtain ⟨p, hpf, rfl⟩ := List.mem_map.mp hn
        exact List.mem_map_of_mem _ (List.mem_filter.mp hpf).1
      · rw [h3] at hn
        obtain ⟨p, hpf, rfl⟩ := List.mem_map.mp hn
        exact List.mem_map_of_mem _ (List.mem_filter.mp hpf).1
  · rintro n ⟨hn1, hn2⟩
    rw [h2] at hn1
    rw [h3] at hn2
    obtain ⟨p, hpf, rfl⟩ := List.mem_map.mp hn1
    obtain ⟨q, hqf, hqn⟩ := List.mem_map.mp hn2
    obtain ⟨hp, hfp⟩ := List.mem_filter.mp hpf
    obtain ⟨hq, hfq⟩ := List.mem_filter.mp hqf
    have hqp : q = p := List.inj_on_of_nodup_map hnd hq hp hqn
    rw [hqp, hfp] at hfq
    simp at hfq
  · rw [h2]
    exact (List.filter_sublist _).map _
  · rw [h3]
    exact (List.filter_sublist _).map _

/-- Witness for claim C5: a concrete two-file batch with one success and
one encode failure. -/
theorem batch_summary_partition_w :
    ∃ st', main_run ⟨false, false, false⟩
        [("a.mkv", okFe), ("b.mkv", encFailFe)] = .ok st'
      ∧ st'.succeeded
          = ([("a.mkv", okFe), ("b.mkv", encFailFe)].filter
              (fun p => fileSuccess ⟨false, false, false⟩ p.2)).map (fun p => p.1)
      ∧ st'.failed
          = ([("a.mkv", okFe), ("b.mkv", encFailFe)].filter
              (fun p => !(fileSuccess ⟨false, false, false⟩ p.2))).map (fun p => p.1)
      ∧ st'.succeeded.length + st'.failed.length
          = [("a.mkv", okFe), ("b.mkv", encFailFe)].length
      ∧ (∀ n, n ∈ [("a.mkv", okFe), ("b.mkv", encFailFe)].map (fun p => p.1)
            ↔ (n ∈ st'.succeeded ∨ n ∈ st'.failed))
      ∧ (∀ n, ¬(n ∈ st'.succeeded ∧ n ∈ st'.failed))
      ∧ st'.succeeded.Sublist
          ([("a.mkv", okFe), ("b.mkv", encFailFe)].map (fun p => p.1))
      ∧ st'.failed.Sublist
          ([("a.mkv", okFe), ("b.mkv", encFailFe)].map (fun p => p.1)) :=
  batch_summary_partition ⟨false, false, false⟩
    [("a.mkv", okFe), ("b.mkv", encFailFe)] (by decide) (by decide) (by decide)

/-- Claim C6: when the invoker reports failure for a file, the finalize
step performs no rename and no delete — the input directory is unchanged
and the file only goes to the failed list — even when the delete-source
flag is set. -/
theorem failed_file_untouched (args : Args) (fe : FileEnv) (vid : String)
    (st : BatchState)
    (hs : fileSuccess args fe = false)
    (hp : args.handbrake = true ∨ fe.probe.ok = true) :
    ∃ st', processFile args fe vid st = .ok st'
      ∧ st'.inFs = st.inFs
      ∧ st'.succeeded = st.succeeded
      ∧ st'.failed = st.failed ++ [vid]
      ∧ (∀ a b, Event.renamed a b ∈ st'.events → Event.renamed a b ∈ st.events)
      ∧ (∀ f, Event.deleted f ∈ st'.events → Event.deleted f ∈ st.events) := by
  obtain ⟨outFs', evs, hinv, hnr, hndel⟩ := invoke_ok args fe vid st.outFs hp
  refine ⟨⟨st.inFs, outFs', st.succeeded, st.failed ++ [vid],
      st.events ++ evs⟩, ?_, rfl, rfl, rfl, ?_, ?_⟩
  · simp only [processFile]
    rw [hinv]
    simp [hs]
  · intro a b hab
    rcases List.mem_append.mp hab with h | h
    · exact h
    · exact absurd h (hnr a b)
  · intro f hf
    rcases List.mem_append.mp hf with h | h
    · exact h
    · exact absurd h (hndel f)

/-- Witness for claim C6: a failing conversion with delete-source set
leaves the concrete input directory intact. -/
theorem failed_file_untouched_w :
    ∃ st', processFile ⟨false, true, false⟩ encFailFe "a.mkv"
        ⟨["a.mkv"], [], [], [], []⟩ = .ok st'
      ∧ st'.inFs = ["a.mkv"]
      ∧ st'.succeeded = []
      ∧ st'.failed = ["a.mkv"]
      ∧ (∀ a b, Event.renamed a b ∈ st'.events
          → Event.renamed a b ∈ ([] : List Event))
      ∧ (∀ f, Event.deleted f ∈ st'.events
          → Event.deleted f ∈ ([] : List Event)) :=
  failed_file_untouched ⟨false, true, false⟩ encFailFe "a.mkv"
    ⟨["a.mkv"], [], [], [], []⟩ rfl (Or.inr rfl)

/-- Claim C10: a filesystem error in the finalize step of a successful,
non-dry-run conversion propagates uncaught: whatever files remain, the
loop ends in that exception — no later file is processed and no summary
state is produced. -/
theorem finalize_error_aborts (args : Args) (fe : FileEnv) (vid : String)
    (st : BatchState) (rest : List (String × FileEnv))
    (hd : args.dry_run = false)
    (hp : args.handbrake = true ∨ fe.probe.ok = true)
    (hs : fileSuccess args fe = true)
    (hcrash : fe.renameRaises = true
      ∨ (fe.renameRaises = false ∧ vid ∈ st.inFs
          ∧ args.delete_source = true ∧ fe.deleteRaises = true)) :
    runFiles args ((vid, fe) :: rest) st = .error "OSError" := by
  obtain ⟨outFs', evs, hinv, -, -⟩ := invoke_ok args fe vid st.outFs hp
  rcases hcrash with hrn | ⟨hrn, hmem, hds, hdel⟩
  · simp only [runFiles, processFile]
    rw [hinv]
    simp [hs, hd, os_rename, hrn]
  · simp only [runFiles, processFile]
    rw [hinv]
    simp only [hs, hd, hrn]
    rw [os_rename_mem_ok st.inFs vid ("converted_" ++ vid) hmem]
    simp [hds, hd, os_remove, hdel]

/-- Witness for claim C10: a concrete rename error after the first file's
successful conversion aborts the batch before the second file. -/
theorem finalize_error_aborts_w :
    runFiles ⟨false, false, false⟩ [("a.mkv", renameFailFe), ("b.mkv", okFe)]
      ⟨["a.mkv", "b.mkv"], [], [], [], []⟩ = .error "OSError" :=
  finalize_error_aborts ⟨false, false, false⟩ renameFailFe "a.mkv"
    ⟨["a.mkv", "b.mkv"], [], [], [], []⟩ [("b.mkv", okFe)] rfl (Or.inr rfl)
    rfl (Or.inl rfl)

end AutoConvert
